import Mathlib

set_option autoImplicit false

/-!
A verification development for the Servo layout task
(`src/components/main/layout/layout_task.rs`): a shallow embedding of the
query engine (hit testing, bounding-box queries), the background-color
resolution, the damage-propagation traversals, the reflow damage-flag
computation and the draining message loop, with theorems about each.
-/

namespace LayoutTask

/-! ## App units and geometry

`Au` is Servo's fixed-point app unit (`servo_util::geometry::Au`, an `i32`
holding 1/60 of a pixel); modelled as `Int`. -/

abbrev Au := Int

/-- `Au::from_px`: a pixel count scaled by 60 app units per pixel. -/
def Au.fromPx (px : Int) : Au := px * 60

structure Point2D where
  x : Au
  y : Au
deriving DecidableEq, Repr

structure Size2D where
  width : Au
  height : Au
deriving DecidableEq, Repr

structure Rect where
  origin : Point2D
  size : Size2D
deriving DecidableEq, Repr

/-- Modelled from the spec: the `geom` crate's `Rect::union` (an external
dependency), the smallest rectangle covering both arguments — min of the
two origins, max of the two far corners. -/
def Rect.union (a b : Rect) : Rect :=
  let ulx := min a.origin.x b.origin.x
  let uly := min a.origin.y b.origin.y
  let lrx := max (a.origin.x + a.size.width) (b.origin.x + b.size.width)
  let lry := max (a.origin.y + a.size.height) (b.origin.y + b.size.height)
  ⟨⟨ulx, uly⟩, ⟨lrx - ulx, lry - uly⟩⟩

/-- `Au::zero_rect()`: the rect with zero origin and zero size. -/
def Au.zeroRect : Rect := ⟨⟨0, 0⟩, ⟨0, 0⟩⟩

/-! ## Display items

Modelled from the spec: `gfx::display_list::DisplayItem` (declared outside
this file) is a paint item carrying a bounds rect and an owning-node
back-reference (`extra`); exactly one variant, the clip item
(`ClipDisplayItemClass`), additionally owns a nested child sequence
(`child_list`). The several non-clip variants (solid color, text, image,
border) are indistinguishable to the query engine, so they are collapsed
into a single `nonClip` constructor. The node type `N` is abstract;
equality on it models the pointer-identity comparison the queries use. -/

inductive DisplayItem (N : Type) where
  | nonClip (bounds : Rect) (extra : N) : DisplayItem N
  | clip (bounds : Rect) (extra : N) (child_list : List (DisplayItem N)) : DisplayItem N
deriving Repr

/-- `item.bounds()` / `item.base().bounds`. -/
def DisplayItem.bounds {N : Type} : DisplayItem N → Rect
  | .nonClip b _ => b
  | .clip b _ _ => b

/-- `item.base().extra`: the owning-node back-reference. -/
def DisplayItem.extra {N : Type} : DisplayItem N → N
  | .nonClip _ e => e
  | .clip _ e _ => e

/-- `item.children()`: the nested child sequence of a clip item, empty for
every other variant. -/
def DisplayItem.children {N : Type} : DisplayItem N → List (DisplayItem N)
  | .nonClip _ _ => []
  | .clip _ _ cs => cs

/-- `gfx::display_list::DisplayList`: an ordered sequence of display items
(field `list`). -/
structure DisplayList (N : Type) where
  list : List (DisplayItem N)

/-! ## Hit testing (`hit_test` in `handle_query`, `HitTestQuery` arm)

The source function iterates the item list twice with `rev_iter()`
(last-painted first), with an early return on the first hit.  Phase 1
recurses into the `child_list` of every `ClipDisplayItemClass` item,
calling `hit_test` itself; phase 2 skips clip items (`continue`) and
returns the first remaining item whose bounds contain the point.  Here a
reverse-order scan with early return is embedded structurally: the scan of
the tail (the later-painted items) takes priority over the head. -/

/-- The containment check of `hit_test`, in the source's literal form:
`x < bounds.origin.x + bounds.size.width && bounds.origin.x <= x &&
y < bounds.origin.y + bounds.size.height && bounds.origin.y <= y`. -/
def containsPoint (x y : Au) (bounds : Rect) : Bool :=
  decide (x < bounds.origin.x + bounds.size.width) &&
  decide (bounds.origin.x ≤ x) &&
  decide (y < bounds.origin.y + bounds.size.height) &&
  decide (bounds.origin.y ≤ y)

/-- The second `for item in list.rev_iter()` loop of `hit_test`: skip clip
items, return the `extra` of the first item (in reverse paint order) whose
bounds contain the point. -/
def hitTestPhase2 {N : Type} (x y : Au) : List (DisplayItem N) → Option N
  | [] => none
  | item :: rest =>
    match hitTestPhase2 x y rest with
    | some r => some r
    | none =>
      match item with
      | .clip _ _ _ => none
      | .nonClip b e => if containsPoint x y b then some e else none

mutual

/-- `hit_test(x, y, list)`: phase 1 (clip recursion) over the reversed
list, then phase 2 (containment scan) over the reversed list only if
phase 1 found nothing. -/
def hit_test {N : Type} (x y : Au) (list : List (DisplayItem N)) : Option N :=
  match hitTestPhase1 x y list with
  | some r => some r
  | none => hitTestPhase2 x y list
termination_by sizeOf list + 1

/-- The first `for item in list.rev_iter()` loop of `hit_test`: for every
clip item, in reverse paint order, recurse into its children with the full
`hit_test` and return the first hit found. Embedded right-to-left: the
tail of the list (painted later) is scanned before the head. -/
def hitTestPhase1 {N : Type} (x y : Au) : List (DisplayItem N) → Option N
  | [] => none
  | item :: rest =>
    match hitTestPhase1 x y rest with
    | some r => some r
    | none =>
      match item with
      | .clip _ _ cs => hit_test x y cs
      | .nonClip _ _ => none
termination_by l => sizeOf l

end

/-! ## Bounding-box queries (`handle_query`, `ContentBoxQuery` and
`ContentBoxesQuery` arms) -/

/-- The accumulator update at the tail of `union_boxes_for_node`'s loop
body: `if item.base().extra == node { match *accumulator { None => ...,
Some(ref mut acc) => *acc = acc.union(&item.base().bounds) } }`. -/
def unionAccum {N : Type} [DecidableEq N] (node : N) (acc : Option Rect) (b : Rect) (e : N) :
    Option Rect :=
  if e = node then
    match acc with
    | none => some b
    | some a => some (a.union b)
  else acc

/-- `union_boxes_for_node(accumulator, iter, node)`: for each item in
order, first recurse into `item.children()` (empty for non-clip items,
inlined here), then fold the item's own bounds into the accumulator if its
`extra` is the target node. -/
def union_boxes_for_node {N : Type} [DecidableEq N] (node : N) (acc : Option Rect) :
    List (DisplayItem N) → Option Rect
  | [] => acc
  | .nonClip b e :: rest =>
    union_boxes_for_node node (unionAccum node acc b e) rest
  | .clip b e cs :: rest =>
    union_boxes_for_node node (unionAccum node (union_boxes_for_node node acc cs) b e) rest

/-- `add_boxes_for_node(accumulator, iter, node)`: same traversal as
`union_boxes_for_node` but pushing each matching bounds rect instead of
unioning. -/
def add_boxes_for_node {N : Type} [DecidableEq N] (node : N) (acc : List Rect) :
    List (DisplayItem N) → List Rect
  | [] => acc
  | .nonClip b e :: rest =>
    add_boxes_for_node node (if e = node then acc ++ [b] else acc) rest
  | .clip b e cs :: rest =>
    add_boxes_for_node node
      (if e = node then add_boxes_for_node node acc cs ++ [b]
       else add_boxes_for_node node acc cs) rest

/-! ## The query dispatcher (`handle_query`)

Each handler's result is wrapped in an outer `Option`: `some reply` means
a reply is sent on the query's channel, `none` models the `unwrap()` of an
absent cached display list, which aborts the task (`fail!`).  The incoming
hit-test point is taken in app units; the source's float-pixel to `Au`
conversion of the point happens before the logic modelled here and does
not affect which branch is taken. -/

/-- The `ContentBoxQuery` arm of `handle_query`:
`self.display_list.as_ref().unwrap()`, then `union_boxes_for_node` from a
`None` accumulator, then `rect.unwrap_or(Au::zero_rect())`. -/
def handleContentBoxQuery {N : Type} [DecidableEq N] (display_list : Option (DisplayList N))
    (node : N) : Option Rect :=
  match display_list with
  | none => none
  | some dl => some ((union_boxes_for_node node none dl.list).getD Au.zeroRect)

/-- The `ContentBoxesQuery` arm of `handle_query`:
`self.display_list.as_ref().unwrap()`, then `add_boxes_for_node` from an
empty accumulator. -/
def handleContentBoxesQuery {N : Type} [DecidableEq N] (display_list : Option (DisplayList N))
    (node : N) : Option (List Rect) :=
  match display_list with
  | none => none
  | some dl => some (add_boxes_for_node node [] dl.list)

/-- The `HitTestQuery` arm of `handle_query`: with a cached display list,
run `hit_test` and reply `Ok` on a hit and `Err(())` on a miss; with no
cached display list, reply `Err(())` (after logging) — never a crash. -/
def handleHitTestQuery {N : Type} (display_list : Option (DisplayList N)) (x y : Au) :
    Option (Except Unit N) :=
  match display_list with
  | some dl =>
    match hit_test x y dl.list with
    | none => some (.error ())
    | some n => some (.ok n)
  | none => some (.error ())

/-! ## Spec-side hit predicates

These do not embed source code; they state, directly, which items of an
item tree contain the query point, for comparison with `hit_test`. -/

/-- Whether some non-clip item, at any nesting depth, has bounds
containing the point. -/
def existsNonClipHit {N : Type} (x y : Au) : List (DisplayItem N) → Bool
  | [] => false
  | .nonClip b _ :: rest => containsPoint x y b || existsNonClipHit x y rest
  | .clip _ _ cs :: rest => existsNonClipHit x y cs || existsNonClipHit x y rest

/-- Whether `n` is the owning node of some non-clip item, at any nesting
depth, whose bounds contain the point. -/
def isHitOwner {N : Type} [DecidableEq N] (x y : Au) (n : N) : List (DisplayItem N) → Bool
  | [] => false
  | .nonClip b e :: rest =>
    (containsPoint x y b && decide (e = n)) || isHitOwner x y n rest
  | .clip _ _ cs :: rest => isHitOwner x y n cs || isHitOwner x y n rest

/-- The per-item probe of hit-test phase 1: recurse into a clip item's
children with the full `hit_test`, ignoring the clip item's own bounds;
yield nothing at a non-clip item. -/
def clipProbe {N : Type} (x y : Au) : DisplayItem N → Option N
  | .clip _ _ cs => hit_test x y cs
  | .nonClip _ _ => none

/-- The per-item probe of hit-test phase 2: yield a non-clip item's owner
when its bounds contain the point; skip clip items. -/
def itemProbe {N : Type} (x y : Au) : DisplayItem N → Option N
  | .clip _ _ _ => none
  | .nonClip b e => if containsPoint x y b then some e else none

/-! ## Background color resolution (`handle_reflow`, display-list branch)

The scanned sequence is the `node.traverse_preorder()` stream (document
order); each scanned node is abstracted to its element type and, for
`html`/`body` elements, its resolved background color
(`resolve_color(style.Background.background_color).to_gfx_color()`), a
value computed by the external style system. Colors are rgba components;
modelled over `ℚ` since the code only compares them for equality. -/

structure Color where
  r : ℚ
  g : ℚ
  b : ℚ
  a : ℚ
deriving DecidableEq, Repr

/-- The pattern `color::rgba(0., 0., 0., 0.)` that the scan skips. -/
def transparentBlack : Color := ⟨0, 0, 0, 0⟩

/-- The initial value `color::rgba(255.0, 255.0, 255.0, 255.0)`: opaque
white, kept when no candidate element provides a color. -/
def opaqueWhite : Color := ⟨255, 255, 255, 255⟩

/-- The element kinds distinguished by the scan: `HTMLHtmlElementTypeId`,
`HTMLBodyElementTypeId`, and everything else. -/
inductive ElementKind where
  | htmlElement
  | bodyElement
  | otherNode
deriving DecidableEq, Repr

/-- The background-color scan of `handle_reflow`: walk the preorder node
stream; at each `html` or `body` element resolve its background color;
skip it if it is `rgba(0., 0., 0., 0.)`, otherwise take it and stop;
default to opaque white. -/
def backgroundColor : List (ElementKind × Color) → Color
  | [] => opaqueWhite
  | (kind, c) :: rest =>
    if kind = .htmlElement ∨ kind = .bodyElement then
      if c = transparentBlack then backgroundColor rest else c
    else backgroundColor rest

/-! ## Reflow damage flag (`handle_reflow`, steps before the traversals) -/

/-- `DocumentDamageLevel` from `script::layout_interface` (declared
outside this file). Modelled from the spec: one of content-changed,
pure-reflow damage, or selector-matching damage (the "other" level). -/
inductive DocumentDamageLevel where
  | contentChangedDocumentDamage
  | reflowDocumentDamage
  | matchSelectorsDocumentDamage
deriving DecidableEq, Repr

/-- A window size in integral pixels (`data.window_size`). -/
structure WindowSize where
  width : Int
  height : Int
deriving DecidableEq, Repr

/-- The screen size `Size2D(Au::from_px(w), Au::from_px(h))` computed from
a reflow request's window size. -/
def screenSizeOf (w : WindowSize) : Size2D :=
  ⟨Au.fromPx w.width, Au.fromPx w.height⟩

/-- The damage-flag computation of `handle_reflow`: `all_style_damage` is
true when the damage level is `ContentChangedDocumentDamage`; it is forced
to true when `self.screen_size != Some(screen_size)`; then
`self.screen_size = Some(screen_size)`.  Returns the flag and the new
stored screen size. -/
def computeAllStyleDamage (stored : Option Size2D) (level : DocumentDamageLevel)
    (window_size : WindowSize) : Bool × Option Size2D :=
  let all_style_damage :=
    match level with
    | .contentChangedDocumentDamage => true
    | _ => false
  let screen_size := screenSizeOf window_size
  let all_style_damage := if stored ≠ some screen_size then true else all_style_damage
  (all_style_damage, some screen_size)

/-! ## Restyle damage and the flow tree

Modelled from the spec: `RestyleDamage` (from `layout::incremental`,
declared outside this file) is a set of independent bits — style, width
bubbling, full reflow, repaint — with `union` (set union), `all()` (all
bits), `is_nonempty`, and two opaque maps `propagate_up` and
`propagate_down` relating a node's bits to its parent's or children's.
The two maps are kept as parameters of the traversals.  The flow (box)
tree keeps only what these traversals touch: the per-node damage value and
the ordered child sequence. -/

inductive DamageBit where
  | style
  | bubbleWidths
  | reflow
  | repaint
deriving DecidableEq, Repr

instance : Fintype DamageBit :=
  ⟨⟨{.style, .bubbleWidths, .reflow, .repaint}, by decide⟩, by intro x; cases x <;> decide⟩

abbrev RestyleDamage := Finset DamageBit

/-- `RestyleDamage::all()`: every damage bit set. -/
def RestyleDamage.all : RestyleDamage := Finset.univ

/-- A node of the flow (box) tree: its restyle damage and its owned,
ordered children. -/
inductive FlowTree where
  | node (restyle_damage : RestyleDamage) (children : List FlowTree)

/-- The damage stored at a flow's root. -/
def FlowTree.damage : FlowTree → RestyleDamage
  | .node d _ => d

/-- The children of a flow's root. -/
def FlowTree.kids : FlowTree → List FlowTree
  | .node _ cs => cs

/-- The damage values of every node of a flow tree, root first. -/
def FlowTree.damages : FlowTree → List RestyleDamage
  | .node d cs => d :: (cs.attach.map fun c => c.val.damages).flatten
termination_by t => sizeOf t
decreasing_by
  have := List.sizeOf_lt_of_mem c.property
  simp only [FlowTree.node.sizeOf_spec]
  omega

/-- `PropagateDamageTraversal` (preorder).  At each node: if
`all_style_damage`, `restyle_damage.union_in_place(RestyleDamage::all())`;
then `prop = restyle_damage.propagate_down()`, and if `prop.is_nonempty()`
union `prop` into every child's damage.  The push into a child is carried
here as the `pushed` argument, unioned in (under the same nonemptiness
guard) when the child itself is processed; the root receives `∅`. -/
def propagateDamage (all_style_damage : Bool) (pd : RestyleDamage → RestyleDamage)
    (pushed : RestyleDamage) : FlowTree → FlowTree
  | .node d cs =>
    let d0 := if pushed ≠ ∅ then d ∪ pushed else d
    let d1 := if all_style_damage then d0 ∪ RestyleDamage.all else d0
    let prop := pd d1
    .node d1 (cs.attach.map fun c => propagateDamage all_style_damage pd prop c.val)
termination_by t => sizeOf t
decreasing_by
  have := List.sizeOf_lt_of_mem c.property
  simp only [FlowTree.node.sizeOf_spec]
  omega

/-- `ComputeDamageTraversal` (postorder).  At each node, after its
children are processed: starting from the node's own damage, union in
`propagate_up` of each child's damage, and store the result. -/
def computeDamage (pu : RestyleDamage → RestyleDamage) : FlowTree → FlowTree
  | .node d cs =>
    let kids := cs.attach.map fun c => computeDamage pu c.val
    .node (kids.foldl (fun acc c => acc ∪ pu c.damage) d) kids
termination_by t => sizeOf t
decreasing_by
  have := List.sizeOf_lt_of_mem c.property
  simp only [FlowTree.node.sizeOf_spec]
  omega

/-! ## The draining loop (`prepare_to_exit`)

After acknowledging on the response channel, the coordinator loops on its
port: a `ReapLayoutDataMsg` is handled (counted here) and the loop
continues; an `ExitNowMsg` runs the render-task exit handshake and breaks;
any other message runs `fail!`, aborting the task. -/

/-- The message kinds of the layout task's port (`Msg` from
`script::layout_interface`). -/
inductive LayoutMsg where
  | addStylesheetMsg
  | reflowMsg
  | queryMsg
  | reapLayoutDataMsg
  | prepareToExitMsg
  | exitNowMsg
deriving DecidableEq, Repr

/-- How the draining loop ends. -/
inductive DrainResult where
  | terminated
  | fatal
  | waiting
deriving DecidableEq, Repr

/-- The drain loop of `prepare_to_exit` over an incoming message sequence:
returns how many reap messages were handled and how the loop ended
(`waiting` when the sequence ran out with the loop still blocked on
`recv`). -/
def drainLoop : List LayoutMsg → Nat × DrainResult
  | [] => (0, .waiting)
  | .reapLayoutDataMsg :: rest =>
    let r := drainLoop rest
    (r.1 + 1, r.2)
  | .exitNowMsg :: _ => (0, .terminated)
  | _ :: _ => (0, .fatal)

/-- `prepare_to_exit`: the acknowledgement is sent first (the `Bool`),
then the drain loop runs. -/
def prepare_to_exit (msgs : List LayoutMsg) : Bool × (Nat × DrainResult) :=
  (true, drainLoop msgs)

/-- Whether some clip item of the list has, among its nested children, a
non-clip item containing the point. -/
def clipSubHit {N : Type} (x y : Au) : List (DisplayItem N) → Bool
  | [] => false
  | .nonClip _ _ :: rest => clipSubHit x y rest
  | .clip _ _ cs :: rest => existsNonClipHit x y cs || clipSubHit x y rest

/-- Whether some top-level non-clip item of the list contains the point. -/
def topHit {N : Type} (x y : Au) : List (DisplayItem N) → Bool
  | [] => false
  | .nonClip b _ :: rest => containsPoint x y b || topHit x y rest
  | .clip _ _ _ :: rest => topHit x y rest

/-- Spec-side: the bounds of every item owned by `node`, in the order the
query traversals visit them (a clip item's children before the clip item
itself, then the rest of the list). -/
def ownedBounds {N : Type} [DecidableEq N] (node : N) : List (DisplayItem N) → List Rect
  | [] => []
  | .nonClip b e :: rest =>
    (if e = node then [b] else []) ++ ownedBounds node rest
  | .clip b e cs :: rest =>
    ownedBounds node cs ++ (if e = node then [b] else []) ++ ownedBounds node rest

/-- Folding one rect into an optional running union. -/
def optUnion (acc : Option Rect) (b : Rect) : Option Rect :=
  match acc with
  | none => some b
  | some a => some (a.union b)

/-- A child's damage after its parent pushes `extra` into it. -/
def unionIntoRoot (extra : RestyleDamage) : FlowTree → FlowTree
  | .node d cs => .node (d ∪ extra) cs

/-- The candidate test of the amended background-color claim: an html or
body element whose resolved color is not exactly `rgba(0., 0., 0., 0.)`. -/
def bgCandidate (p : ElementKind × Color) : Bool :=
  decide ((p.1 = ElementKind.htmlElement ∨ p.1 = ElementKind.bodyElement)
    ∧ p.2 ≠ transparentBlack)

/-! ## Helper lemmas: the hit-test phases as reverse-order scans -/


theorem hitTestPhase1_findSome {N : Type} (x y : Au) (l : List (DisplayItem N)) :
    hitTestPhase1 x y l = l.reverse.findSome? (clipProbe x y) := by
  induction l with
  | nil => simp [hitTestPhase1]
  | cons item rest ih =>
    rw [List.reverse_cons, List.findSome?_append, ← ih]
    cases h : hitTestPhase1 x y rest with
    | some r => cases item <;> simp [hitTestPhase1, h, Option.or]
    | none =>
      cases item with
      | nonClip b e =>
        simp [hitTestPhase1, h, clipProbe, Option.or, List.findSome?_cons]
      | clip b e cs =>
        simp only [hitTestPhase1, h, clipProbe, Option.or, List.findSome?_cons,
          List.findSome?_nil]
        cases hit_test x y cs <;> rfl

theorem hitTestPhase2_findSome {N : Type} (x y : Au) (l : List (DisplayItem N)) :
    hitTestPhase2 x y l = l.reverse.findSome? (itemProbe x y) := by
  induction l with
  | nil => simp [hitTestPhase2]
  | cons item rest ih =>
    rw [List.reverse_cons, List.findSome?_append, ← ih]
    cases h : hitTestPhase2 x y rest with
    | some r => cases item <;> simp [hitTestPhase2, h, Option.or]
    | none =>
      cases item with
      | clip b e cs =>
        simp [hitTestPhase2, h, itemProbe, Option.or, List.findSome?_cons]
      | nonClip b e =>
        by_cases hb : containsPoint x y b = true <;>
          simp [hitTestPhase2, h, itemProbe, Option.or, List.findSome?_cons, hb]

theorem existsNonClipHit_split {N : Type} (x y : Au) (l : List (DisplayItem N)) :
    existsNonClipHit x y l = (topHit x y l || clipSubHit x y l) := by
  induction l with
  | nil => simp [existsNonClipHit, topHit, clipSubHit]
  | cons item rest ih =>
    cases item <;>
      simp [existsNonClipHit, topHit, clipSubHit, ih, Bool.or_assoc,
        Bool.or_comm, Bool.or_left_comm]

theorem hitTestPhase2_none_iff {N : Type} (x y : Au) (l : List (DisplayItem N)) :
    hitTestPhase2 x y l = none ↔ topHit x y l = false := by
  induction l with
  | nil => simp [hitTestPhase2, topHit]
  | cons item rest ih =>
    cases h : hitTestPhase2 x y rest with
    | some r =>
      have : topHit x y rest = true := by
        by_contra hc
        simp at hc
        rw [ih.2 hc] at h
        exact Option.noConfusion h
      cases item <;> simp [hitTestPhase2, topHit, h, this]
    | none =>
      cases item with
      | clip b e cs => simp [hitTestPhase2, topHit, h, ih.1 h]
      | nonClip b e =>
        by_cases hb : containsPoint x y b = true <;>
          simp [hitTestPhase2, topHit, h, ih.1 h, hb]

theorem hit_test_none_iff {N : Type} (x y : Au) (l : List (DisplayItem N)) :
    hit_test x y l = none ↔ existsNonClipHit x y l = false := by
  refine hit_test.induct x y
    (fun l => hit_test x y l = none ↔ existsNonClipHit x y l = false)
    (fun l => hitTestPhase1 x y l = none ↔ clipSubHit x y l = false)
    ?_ ?_ ?_ ?_ ?_ ?_ l
  · intro list r h1 ih
    have hcs : clipSubHit x y list = true := by
      by_contra hc
      simp at hc
      rw [ih.2 hc] at h1
      exact Option.noConfusion h1
    simp [hit_test, h1, existsNonClipHit_split, hcs]
  · intro list h1 ih
    simp [hit_test, h1, existsNonClipHit_split, ih.1 h1, hitTestPhase2_none_iff]
  · simp [hitTestPhase1, clipSubHit]
  · intro item rest r h1 ih
    have hcs : clipSubHit x y rest = true := by
      by_contra hc
      simp at hc
      rw [ih.2 hc] at h1
      exact Option.noConfusion h1
    cases item <;> simp [hitTestPhase1, clipSubHit, h1, hcs]
  · intro rest h1 b e cs ih1 ihcs
    constructor
    · intro h
      simp only [hitTestPhase1, h1] at h
      simp [clipSubHit, ihcs.1 h, ih1.1 h1]
    · intro h
      simp only [clipSubHit, Bool.or_eq_false_iff] at h
      simp [hitTestPhase1, h1, ihcs.2 h.1]
  · intro rest h1 b e ih
    simp [hitTestPhase1, clipSubHit, h1, ih.1 h1]

theorem hitTestPhase2_some_owner {N : Type} [DecidableEq N] (x y : Au) (n : N)
    (l : List (DisplayItem N)) (h : hitTestPhase2 x y l = some n) :
    isHitOwner x y n l = true := by
  induction l with
  | nil => simp [hitTestPhase2] at h
  | cons item rest ih =>
    cases hr : hitTestPhase2 x y rest with
    | some r =>
      simp only [hitTestPhase2, hr] at h
      injection h with h
      subst h
      cases item <;> simp [isHitOwner, ih hr]
    | none =>
      cases item with
      | clip b e cs => simp [hitTestPhase2, hr] at h
      | nonClip b e =>
        simp only [hitTestPhase2, hr] at h
        by_cases hb : containsPoint x y b = true
        · simp only [hb, if_true, Option.some.injEq] at h
          simp [isHitOwner, hb, h]
        · simp [hb] at h

theorem hit_test_some_owner {N : Type} [DecidableEq N] (x y : Au)
    (l : List (DisplayItem N)) :
    ∀ n, hit_test x y l = some n → isHitOwner x y n l = true := by
  refine hit_test.induct x y
    (fun l => ∀ n, hit_test x y l = some n → isHitOwner x y n l = true)
    (fun l => ∀ n, hitTestPhase1 x y l = some n → isHitOwner x y n l = true)
    ?_ ?_ ?_ ?_ ?_ ?_ l
  · intro list r h1 ih n h
    simp only [hit_test, h1, Option.some.injEq] at h
    subst h
    exact ih r h1
  · intro list h1 ih n h
    simp only [hit_test, h1] at h
    exact hitTestPhase2_some_owner x y n list h
  · intro n h
    simp [hitTestPhase1] at h
  · intro item rest r h1 ih n h
    cases item with
    | nonClip b e =>
      simp only [hitTestPhase1, h1, Option.some.injEq] at h
      subst h
      simp [isHitOwner, ih r h1]
    | clip b e cs =>
      simp only [hitTestPhase1, h1, Option.some.injEq] at h
      subst h
      simp [isHitOwner, ih r h1]
  · intro rest h1 b e cs ih1 ihcs n h
    simp only [hitTestPhase1, h1] at h
    simp [isHitOwner, ihcs n h]
  · intro rest h1 b e ih n h
    simp [hitTestPhase1, h1] at h

/-! ## Helper lemmas: the bounding-box accumulators as folds -/


theorem unionAccum_eq {N : Type} [DecidableEq N] (node : N) (acc : Option Rect) (b : Rect)
    (e : N) : unionAccum node acc b e = if e = node then optUnion acc b else acc := by
  by_cases h : e = node <;> cases acc <;> simp [unionAccum, optUnion, h]

theorem add_boxes_eq {N : Type} [DecidableEq N] (node : N) (acc : List Rect)
    (l : List (DisplayItem N)) :
    add_boxes_for_node node acc l = acc ++ ownedBounds node l := by
  refine add_boxes_for_node.induct node
    (fun acc l => add_boxes_for_node node acc l = acc ++ ownedBounds node l)
    ?_ ?_ ?_ acc l
  · intro acc
    simp [add_boxes_for_node, ownedBounds]
  · intro acc b e rest ih
    by_cases h : e = node
    · rw [dif_pos h] at ih
      simp [add_boxes_for_node, ownedBounds, h, ih]
    · rw [dif_neg h] at ih
      simp [add_boxes_for_node, ownedBounds, h, ih]
  · intro acc b e cs rest ihcs ih
    by_cases h : e = node
    · rw [dif_pos h, ihcs] at ih
      simp only [List.append_assoc, List.singleton_append] at ih
      simp [add_boxes_for_node, ownedBounds, h, ihcs, ih, List.append_assoc]
    · rw [dif_neg h, ihcs] at ih
      simp only [List.append_assoc, List.singleton_append] at ih
      simp [add_boxes_for_node, ownedBounds, h, ihcs, ih, List.append_assoc]

theorem union_boxes_eq_foldl {N : Type} [DecidableEq N] (node : N) (acc : Option Rect)
    (l : List (DisplayItem N)) :
    union_boxes_for_node node acc l = (ownedBounds node l).foldl optUnion acc := by
  refine union_boxes_for_node.induct node
    (fun acc l => union_boxes_for_node node acc l = (ownedBounds node l).foldl optUnion acc)
    ?_ ?_ ?_ acc l
  · intro acc
    simp [union_boxes_for_node, ownedBounds]
  · intro acc b e rest ih
    rw [unionAccum_eq] at ih
    by_cases h : e = node
    · rw [if_pos h] at ih
      simp [union_boxes_for_node, ownedBounds, unionAccum_eq, h, ih]
    · rw [if_neg h] at ih
      simp [union_boxes_for_node, ownedBounds, unionAccum_eq, h, ih]
  · intro acc b e cs rest ihcs ih
    rw [unionAccum_eq, ihcs] at ih
    by_cases h : e = node
    · rw [if_pos h] at ih
      simp [union_boxes_for_node, ownedBounds, unionAccum_eq, h, ih, ihcs,
        List.foldl_append]
    · rw [if_neg h] at ih
      simp [union_boxes_for_node, ownedBounds, unionAccum_eq, h, ih, ihcs,
        List.foldl_append]

theorem foldl_optUnion_some (bs : List Rect) (a : Rect) :
    bs.foldl optUnion (some a) = some (bs.foldl Rect.union a) := by
  induction bs generalizing a with
  | nil => rfl
  | cons b bs ih => simp [optUnion, ih]

/-! ## Helper lemmas: the damage traversals -/


theorem propagateDamage_push_root (pd : RestyleDamage → RestyleDamage)
    (prop : RestyleDamage) (c : FlowTree) :
    propagateDamage false pd prop c = propagateDamage false pd ∅ (unionIntoRoot prop c) := by
  cases c with
  | node d cs =>
    by_cases hp : prop = ∅ <;>
      simp [propagateDamage, unionIntoRoot, hp, Finset.union_empty]

theorem propagateDamage_all_univ (pd : RestyleDamage → RestyleDamage)
    (pushed : RestyleDamage) (t : FlowTree) :
    ∀ x ∈ (propagateDamage true pd pushed t).damages, x = RestyleDamage.all := by
  refine propagateDamage.induct true pd
    (fun pushed t => ∀ x ∈ (propagateDamage true pd pushed t).damages, x = RestyleDamage.all)
    ?_ pushed t
  intro pushed d cs d0 d1 prop ih x hx
  simp only [propagateDamage.eq_1, FlowTree.damages, List.mem_cons, List.mem_flatten,
    List.mem_map, List.mem_attach, true_and, if_true] at hx
  rcases hx with hx | ⟨ds, ⟨c, rfl⟩, hx⟩
  · subst hx
    simp [RestyleDamage.all]
  · obtain ⟨a, ha, hfa⟩ := List.mem_map.1 c.property
    exact ih a x (hfa ▸ hx)

theorem foldl_union_eq (f : FlowTree → RestyleDamage) (kids : List FlowTree)
    (d : RestyleDamage) :
    kids.foldl (fun acc c => acc ∪ f c) d = d ∪ (kids.map f).foldr (· ∪ ·) ∅ := by
  induction kids generalizing d with
  | nil => simp
  | cons k ks ih => simp [ih, Finset.union_assoc]

theorem mem_foldr_union_subset (s : RestyleDamage) (l : List RestyleDamage) (h : s ∈ l) :
    s ⊆ l.foldr (· ∪ ·) ∅ := by
  induction l with
  | nil => cases h
  | cons a l ih =>
    rcases List.mem_cons.1 h with rfl | h
    · exact Finset.subset_union_left
    · exact (ih h).trans Finset.subset_union_right

/-- C1: hit test is a two-phase reverse-paint-order scan. -/
theorem hit_test_two_phase {N : Type} (x y : Au) :
    (∀ l : List (DisplayItem N),
       hit_test x y l =
         ((l.reverse.findSome? (clipProbe x y)).or (l.reverse.findSome? (itemProbe x y))))
    ∧ ∀ (bA : Rect) (eA : N) (bB : Rect) (eB : N),
        containsPoint x y bA = true → containsPoint x y bB = true →
          hit_test x y [.nonClip bA eA, .nonClip bB eB] = some eB := by
  constructor
  · intro l
    rw [← hitTestPhase1_findSome, ← hitTestPhase2_findSome]
    cases h : hitTestPhase1 x y l <;> simp [hit_test, h, Option.or]
  · intro bA eA bB eB hA hB
    simp [hit_test, hitTestPhase1, hitTestPhase2, hA, hB]

theorem hit_test_two_phase_witness :
    hit_test 5 5 [DisplayItem.nonClip ⟨⟨0, 0⟩, ⟨10, 10⟩⟩ (1 : ℕ),
      DisplayItem.nonClip ⟨⟨0, 0⟩, ⟨20, 20⟩⟩ 2] = some 2 :=
  (hit_test_two_phase 5 5).2 ⟨⟨0, 0⟩, ⟨10, 10⟩⟩ 1 ⟨⟨0, 0⟩, ⟨20, 20⟩⟩ 2
    (by decide) (by decide)

/-- C2: the containment check is half-open on both axes. -/
theorem containment_half_open :
    ∀ x y x0 y0 w h : Int,
      (containsPoint x y ⟨⟨x0, y0⟩, ⟨w, h⟩⟩ = true ↔
         (x0 ≤ x ∧ x < x0 + w ∧ y0 ≤ y ∧ y < y0 + h))
      ∧ (0 < w → 0 < h →
           containsPoint x0 y0 ⟨⟨x0, y0⟩, ⟨w, h⟩⟩ = true
           ∧ containsPoint (x0 + w) y0 ⟨⟨x0, y0⟩, ⟨w, h⟩⟩ = false
           ∧ containsPoint x0 (y0 + h) ⟨⟨x0, y0⟩, ⟨w, h⟩⟩ = false) := by
  intro x y x0 y0 w h
  constructor
  · simp [containsPoint]
    tauto
  · intro hw hh
    refine ⟨?_, ?_, ?_⟩ <;>
      simp only [containsPoint, Bool.and_eq_true, Bool.and_eq_false_iff,
        decide_eq_true_eq, decide_eq_false_iff_not, not_lt, not_le]
    · refine ⟨⟨⟨?_, le_refl x0⟩, ?_⟩, le_refl y0⟩ <;> linarith
    · exact Or.inl (Or.inl (Or.inl (le_refl (x0 + w))))
    · exact Or.inl (Or.inr (le_refl (y0 + h)))

theorem containment_half_open_witness :
    containsPoint 0 0 ⟨⟨0, 0⟩, ⟨10, 10⟩⟩ = true
    ∧ containsPoint 10 0 ⟨⟨0, 0⟩, ⟨10, 10⟩⟩ = false
    ∧ containsPoint 0 10 ⟨⟨0, 0⟩, ⟨10, 10⟩⟩ = false :=
  (containment_half_open 0 0 0 0 10 10).2 (by decide) (by decide)

/-- C5: the full-style-damage flag and the stored viewport update. -/
theorem reflow_damage_flag :
    ∀ (stored : Option Size2D) (level : DocumentDamageLevel) (ws : WindowSize),
      ((computeAllStyleDamage stored level ws).1 = true ↔
         level = DocumentDamageLevel.contentChangedDocumentDamage
         ∨ stored ≠ some (screenSizeOf ws))
      ∧ (computeAllStyleDamage stored level ws).2 = some (screenSizeOf ws) := by
  intro stored level ws
  by_cases hs : stored = some (screenSizeOf ws) <;>
    cases level <;> simp [computeAllStyleDamage, hs]

/-- C8: the drain loop handles reaps, stops at exit-now, aborts on all else. -/
theorem draining_dispatch :
    ∀ (m : LayoutMsg) (msgs : List LayoutMsg),
      drainLoop (LayoutMsg.reapLayoutDataMsg :: msgs) =
        ((drainLoop msgs).1 + 1, (drainLoop msgs).2)
      ∧ drainLoop (LayoutMsg.exitNowMsg :: msgs) = (0, DrainResult.terminated)
      ∧ (m ≠ LayoutMsg.reapLayoutDataMsg → m ≠ LayoutMsg.exitNowMsg →
           drainLoop (m :: msgs) = (0, DrainResult.fatal)) := by
  intro m msgs
  refine ⟨rfl, rfl, ?_⟩
  intro h1 h2
  cases m <;> simp_all [drainLoop]

theorem draining_dispatch_witness :
    drainLoop [LayoutMsg.queryMsg] = (0, DrainResult.fatal) :=
  (draining_dispatch LayoutMsg.queryMsg []).2.2 (by decide) (by decide)

/-- C10: bounding-box queries crash without a cached display list; the
hit-test query replies instead. -/
theorem query_without_display_list {N : Type} [DecidableEq N] :
    ∀ (n : N) (x y : Au),
      handleContentBoxQuery (none : Option (DisplayList N)) n = none
      ∧ handleContentBoxesQuery (none : Option (DisplayList N)) n = none
      ∧ handleHitTestQuery (none : Option (DisplayList N)) x y =
          some (Except.error ()) := by
  intro n x y
  exact ⟨rfl, rfl, rfl⟩

/-- C3: the content-box query returns the union of the bounds of every
item owned by the target node, a zero rect when none match. -/
theorem content_box_query_union {N : Type} [DecidableEq N] :
    ∀ (node : N) (l : List (DisplayItem N)),
      handleContentBoxQuery (some ⟨l⟩) node =
        some (match ownedBounds node l with
              | [] => Au.zeroRect
              | b :: bs => bs.foldl Rect.union b)
      ∧ (ownedBounds node l = [] →
           handleContentBoxQuery (some ⟨l⟩) node = some Au.zeroRect) := by
  intro node l
  have key : handleContentBoxQuery (some ⟨l⟩) node =
      some (match ownedBounds node l with
            | [] => Au.zeroRect
            | b :: bs => bs.foldl Rect.union b) := by
    simp only [handleContentBoxQuery, union_boxes_eq_foldl]
    cases hob : ownedBounds node l with
    | nil => rfl
    | cons b bs =>
      simp [List.foldl_cons, optUnion, foldl_optUnion_some]
  refine ⟨key, fun hob => ?_⟩
  rw [key, hob]

theorem content_box_query_union_witness :
    handleContentBoxQuery
        (some ⟨[DisplayItem.nonClip ⟨⟨0, 0⟩, ⟨10, 10⟩⟩ (3 : ℕ),
                DisplayItem.nonClip ⟨⟨5, 5⟩, ⟨15, 15⟩⟩ 3]⟩) 3 =
      some ⟨⟨0, 0⟩, ⟨20, 20⟩⟩ := by
  have h := (content_box_query_union (3 : ℕ)
    [DisplayItem.nonClip ⟨⟨0, 0⟩, ⟨10, 10⟩⟩ 3,
     DisplayItem.nonClip ⟨⟨5, 5⟩, ⟨15, 15⟩⟩ 3]).1
  rw [h]
  simp [ownedBounds, Rect.union]


/-- C4 (counterexample): a fully transparent (alpha-zero) but non-black
html background color is *used*, not skipped, by the scan. -/
theorem background_transparent_red_used :
    backgroundColor [(ElementKind.htmlElement, ⟨255, 0, 0, 0⟩)] = ⟨255, 0, 0, 0⟩
    ∧ (⟨255, 0, 0, 0⟩ : Color).a = 0
    ∧ (⟨255, 0, 0, 0⟩ : Color) ≠ opaqueWhite := by
  refine ⟨?_, rfl, ?_⟩
  · simp [backgroundColor, transparentBlack]
  · simp [opaqueWhite]

/-- C4 (amended): the scan returns the color of the first html/body
element whose resolved color is not exactly `rgba(0,0,0,0)`, defaulting to
opaque white. -/
theorem background_color_first_candidate :
    ∀ l : List (ElementKind × Color),
      backgroundColor l = ((l.find? bgCandidate).map Prod.snd).getD opaqueWhite := by
  intro l
  induction l with
  | nil => simp [backgroundColor]
  | cons p rest ih =>
    obtain ⟨k, c⟩ := p
    by_cases hk : k = ElementKind.htmlElement ∨ k = ElementKind.bodyElement
    · by_cases hc : c = transparentBlack
      · simp [backgroundColor, hk, hc, bgCandidate, List.find?_cons, ih]
      · simp [backgroundColor, hk, hc, bgCandidate, List.find?_cons]
    · have hk1 : ¬k = ElementKind.htmlElement := fun h => hk (Or.inl h)
      have hk2 : ¬k = ElementKind.bodyElement := fun h => hk (Or.inr h)
      simp [backgroundColor, hk1, hk2, bgCandidate, List.find?_cons, ih]

/-- C6: with the full-style flag, top-down propagation leaves every node
at all-bits damage; without it, each child is processed with its damage
unioned with the parent's propagate_down result. -/
theorem damage_propagation_down (pd : RestyleDamage → RestyleDamage) (d : RestyleDamage)
    (cs : List FlowTree) :
    (∀ x ∈ (propagateDamage true pd ∅ (FlowTree.node d cs)).damages,
       x = RestyleDamage.all)
    ∧ propagateDamage false pd ∅ (FlowTree.node d cs) =
        FlowTree.node d
          (cs.map fun c => propagateDamage false pd ∅ (unionIntoRoot (pd d) c)) := by
  constructor
  · exact propagateDamage_all_univ pd ∅ (FlowTree.node d cs)
  · rw [propagateDamage.eq_1]
    simp only [ne_eq, not_true_eq_false, if_false, Bool.false_eq_true,
      List.attach_map_val]
    congr 1
    exact List.map_congr_left fun c _ => propagateDamage_push_root pd (pd d) c

theorem damage_propagation_down_witness :
    (propagateDamage true (fun _ => ∅) ∅
        (FlowTree.node {DamageBit.repaint} [FlowTree.node ∅ []])).damage
      = RestyleDamage.all := by
  have h := (damage_propagation_down (fun _ => ∅) {DamageBit.repaint}
    [FlowTree.node ∅ []]).1
  refine h _ ?_
  rw [propagateDamage.eq_1]
  simp [FlowTree.damages, FlowTree.damage]


/-- C7: bottom-up aggregation stores, at each node, the union of its own
damage with every child's propagate_up contribution, hence a superset of
each contribution. -/
theorem damage_aggregation_up (pu : RestyleDamage → RestyleDamage) (d : RestyleDamage)
    (cs : List FlowTree) :
    ((computeDamage pu (FlowTree.node d cs)).damage =
        d ∪ (((computeDamage pu (FlowTree.node d cs)).kids.map
                fun c => pu c.damage).foldr (· ∪ ·) ∅))
    ∧ ∀ c ∈ (computeDamage pu (FlowTree.node d cs)).kids,
        pu c.damage ⊆ (computeDamage pu (FlowTree.node d cs)).damage := by
  have hk : (computeDamage pu (FlowTree.node d cs)).kids = cs.map (computeDamage pu) := by
    rw [computeDamage.eq_1]
    simp [FlowTree.kids, List.attach_map_val]
  have hd : (computeDamage pu (FlowTree.node d cs)).damage =
      (cs.map (computeDamage pu)).foldl (fun acc c => acc ∪ pu c.damage) d := by
    rw [computeDamage.eq_1]
    simp [FlowTree.damage, List.attach_map_val]
  constructor
  · rw [hd, hk, foldl_union_eq]
  · intro c hc
    rw [hd, foldl_union_eq]
    rw [hk] at hc
    refine Finset.Subset.trans ?_ Finset.subset_union_right
    exact mem_foldr_union_subset _ _ (List.mem_map_of_mem _ hc)

theorem damage_aggregation_up_witness :
    ({DamageBit.reflow} : RestyleDamage) ⊆
      (computeDamage (fun _ => {DamageBit.reflow})
        (FlowTree.node ∅ [FlowTree.node {DamageBit.style} []])).damage := by
  refine (damage_aggregation_up (fun _ => {DamageBit.reflow}) ∅
    [FlowTree.node {DamageBit.style} []]).2 (FlowTree.node {DamageBit.style} []) ?_
  rw [computeDamage.eq_1]
  simp [FlowTree.kids, computeDamage.eq_1]


/-- C9 (counterexample): a point inside a clip display item's own bounds
(and inside nothing else) still yields the failure reply, although the
display list is cached and the point is contained in a display item. -/
theorem hit_test_clip_only_fails :
    containsPoint 5 5
        (DisplayItem.clip ⟨⟨0, 0⟩, ⟨10, 10⟩⟩ (0 : ℕ) []).bounds = true
    ∧ handleHitTestQuery
        (some ⟨[DisplayItem.clip ⟨⟨0, 0⟩, ⟨10, 10⟩⟩ (0 : ℕ) []]⟩) 5 5 =
      some (Except.error ()) := by
  constructor
  · decide
  · simp [handleHitTestQuery, hit_test, hitTestPhase1, hitTestPhase2]

/-- C9 (amended): the hit-test query replies with the failure value
exactly when no display list is cached or no non-clip item at any depth
contains the point; otherwise it replies with the owner of a hit non-clip
item; it never crashes. -/
theorem hit_test_query_failure_iff {N : Type} [DecidableEq N] :
    ∀ (display_list : Option (DisplayList N)) (x y : Au),
      (handleHitTestQuery display_list x y = some (Except.error ()) ↔
         display_list = none
         ∨ ∃ dl, display_list = some dl ∧ existsNonClipHit x y dl.list = false)
      ∧ (∀ n, handleHitTestQuery display_list x y = some (Except.ok n) →
           ∃ dl, display_list = some dl ∧ isHitOwner x y n dl.list = true)
      ∧ ∃ r, handleHitTestQuery display_list x y = some r := by
  intro display_list x y
  cases display_list with
  | none =>
    refine ⟨by simp [handleHitTestQuery], ?_, ⟨Except.error (), rfl⟩⟩
    intro n h
    simp [handleHitTestQuery] at h
  | some dl =>
    cases h : hit_test x y dl.list with
    | none =>
      have hnc := (hit_test_none_iff x y dl.list).1 h
      refine ⟨?_, ?_, ⟨Except.error (), by simp [handleHitTestQuery, h]⟩⟩
      · simp [handleHitTestQuery, h, hnc]
      · intro n hn
        simp [handleHitTestQuery, h] at hn
    | some m =>
      have how := hit_test_some_owner x y dl.list m h
      refine ⟨?_, ?_, ⟨Except.ok m, by simp [handleHitTestQuery, h]⟩⟩
      · constructor
        · intro he
          simp [handleHitTestQuery, h] at he
        · rintro (hnone | ⟨dl2, hdl2, hnc⟩)
          · exact absurd hnone (by simp)
          · cases Option.some.injEq dl dl2 ▸ hdl2
            rw [(hit_test_none_iff x y dl.list).2 hnc] at h
            exact Option.noConfusion h
      · intro n hn
        simp only [handleHitTestQuery, h, Option.some.injEq] at hn
        cases hn
        exact ⟨dl, rfl, how⟩

theorem hit_test_query_failure_iff_witness :
    ∃ dl, (some ⟨[DisplayItem.nonClip ⟨⟨0, 0⟩, ⟨10, 10⟩⟩ (7 : ℕ)]⟩ :
        Option (DisplayList ℕ)) = some dl ∧ isHitOwner 5 5 7 dl.list = true := by
  refine (hit_test_query_failure_iff
    (some ⟨[DisplayItem.nonClip ⟨⟨0, 0⟩, ⟨10, 10⟩⟩ (7 : ℕ)]⟩) 5 5).2.1 7 ?_
  simp [handleHitTestQuery, hit_test, hitTestPhase1, hitTestPhase2, containsPoint]

end LayoutTask
